import Mathlib

/-!
Verification of the resilient delimited-text ingestion pipeline
(`read_csv.py`, `read_csv2.py`, `read_csv3.py`).

The pipeline's pure core is embedded shallowly:

* the Width Normalizer of `load_csv_force_width` (read_csv2.py) and
  `load_csv_force_width_resilient` (read_csv3.py) — both files contain the
  same row-reshaping logic — is embedded from the point where the parsed
  row list is available (`rows = list(rdr)`); the file/IO and `csv.reader`
  front end is outside the embedding;
* the Delimiter Inferencer `_detect_delim_from_text` (read_csv3.py) and
  `_detect_delimiter` (read_csv.py);
* the byte-level heuristic `_looks_utf16` and the decoder driver
  `_decode_text_safely` (read_csv3.py), with the actual codec decoders
  (`raw.decode(...)`) abstracted as function parameters;
* the fallback orchestration of `robust_read_csv` (read_csv.py), with the
  four pandas-based tokenization strategies abstracted as parameters.

Python `float` arithmetic on these code paths divides small exact integers
by a common positive denominator and compares the results; on every branch
point the comparison agrees with exact rational arithmetic, so floats are
modelled as `ℚ`.  Python runtime errors (IndexError on an empty or
out-of-range subscript, the terminal RuntimeError raises) are modelled by
`Option`/`Except`.
-/

namespace CsvIngest

/-! ### Width Normalizer (read_csv2.py lines 29-82, read_csv3.py lines 82-123) -/

/-- `f'__placeholder_{i}'` — synthesized header name. -/
def placeholderName (i : Nat) : String :=
  "__placeholder_" ++ toString i

/-- Header adjustment: `if len(header) < expected_cols: header += placeholders`
    `elif len(header) > expected_cols: header = header[:expected_cols]`. -/
def padHeader (header : List String) (expectedCols : Nat) : List String :=
  if header.length < expectedCols then
    header ++ (List.range (expectedCols - header.length)).map placeholderName
  else if expectedCols < header.length then
    header.take expectedCols
  else
    header

/-- `target_idx = header.index(merge_into) if (merge_into and merge_into in header)
    else expected_cols - 1`.  Python `merge_into and ...` treats the empty
    string as falsy; `None` is modelled by `Option.none`.  With
    `expected_cols = 0` Python's `expected_cols - 1` is the negative index
    `-1`; both it and the `Nat` value `0` make the overflow branch subscript
    an empty `kept` list and raise, so `Nat` subtraction is faithful here. -/
def resolveTargetIdx (header : List String) (mergeInto : Option String)
    (expectedCols : Nat) : Nat :=
  match mergeInto with
  | none => expectedCols - 1
  | some name =>
      if name ≠ "" ∧ name ∈ header then header.indexOf name
      else expectedCols - 1

/-- `','.join(overflow)`. -/
def joinComma (overflow : List String) : String :=
  String.intercalate "," overflow

/-- `.rstrip(',')` — drop every trailing comma. -/
def rstripComma (s : String) : String :=
  String.mk ((s.data.reverse.dropWhile (fun c => c = ',')).reverse)

/-- `(old + ',' + ','.join(overflow)).rstrip(',')`. -/
def mergeJoin (old : String) (overflow : List String) : String :=
  rstripComma (old ++ "," ++ joinComma overflow)

/-- The per-row body of the normalization loop (read_csv2.py lines 51-72,
    read_csv3.py lines 99-114):

    * `len(r) == expected_cols`: kept unchanged;
    * `len(r) > expected_cols`: `overflow = r[expected_cols-1:]`
      (= `r.drop (expectedCols - 1)`), `kept = r[:expected_cols]`
      (= `r.take expectedCols`), and the merge-join is written into
      `kept[target_idx]` (when `target_idx < expected_cols - 1`) or into
      `kept[-1]`; Python's IndexError on an out-of-range or empty
      subscript (reachable only with `expected_cols = 0`) is `none`;
    * otherwise: `r + [''] * (expected_cols - len(r))`. -/
def fixRow (r : List String) (expectedCols : Nat) (targetIdx : Nat) :
    Option (List String) :=
  if r.length = expectedCols then
    some r
  else if expectedCols < r.length then
    if targetIdx < expectedCols - 1 then
      if hb : targetIdx < (r.take expectedCols).length then
        some ((r.take expectedCols).set targetIdx
          (mergeJoin ((r.take expectedCols).get ⟨targetIdx, hb⟩)
            (r.drop (expectedCols - 1))))
      else none
    else
      match r.take expectedCols with
      | [] => none
      | x :: xs =>
          some ((x :: xs).dropLast ++
            [mergeJoin ((x :: xs).getLast (List.cons_ne_nil x xs))
              (r.drop (expectedCols - 1))])
  else
    some (r ++ List.replicate (expectedCols - r.length) "")

/-- The normalization loop: fixed rows plus the `long_rows`/`short_rows`
    tallies, in input order. -/
def fixBody (body : List (List String)) (expectedCols : Nat) (targetIdx : Nat) :
    Option (List (List String) × Nat × Nat) :=
  match body with
  | [] => some ([], 0, 0)
  | r :: rs =>
      match fixRow r expectedCols targetIdx, fixBody rs expectedCols targetIdx with
      | some fr, some (frs, lng, srt) =>
          some (fr :: frs,
                (if expectedCols < r.length then 1 else 0) + lng,
                (if r.length < expectedCols then 1 else 0) + srt)
      | _, _ => none

/-- The normalized table: header, body rows, and the two anomaly tallies
    printed by the source (part of the IngestReport in the spec). -/
structure Table where
  header : List String
  rows : List (List String)
  longRows : Nat
  shortRows : Nat
deriving Repr, DecidableEq

/-- `load_csv_force_width` from the point where `rows` is parsed:
    empty input returns an empty DataFrame; otherwise the header is
    adjusted, the merge target resolved, and every body row reshaped. -/
def loadCsvForceWidth (rows : List (List String)) (expectedCols : Nat)
    (mergeInto : Option String) : Option Table :=
  match rows with
  | [] => some ⟨[], [], 0, 0⟩
  | header :: body =>
      match fixBody body expectedCols
          (resolveTargetIdx (padHeader header expectedCols) mergeInto expectedCols) with
      | some (fixedRows, lng, srt) =>
          some ⟨padHeader header expectedCols, fixedRows, lng, srt⟩
      | none => none

/-! ### Width Normalizer lemmas -/

theorem fixRow_length {r fr : List String} {expectedCols targetIdx : Nat}
    (h : fixRow r expectedCols targetIdx = some fr) : fr.length = expectedCols := by
  unfold fixRow at h
  by_cases h1 : r.length = expectedCols
  · rw [if_pos h1] at h
    cases h
    exact h1
  · rw [if_neg h1] at h
    by_cases h2 : expectedCols < r.length
    · rw [if_pos h2] at h
      by_cases h3 : targetIdx < expectedCols - 1
      · rw [if_pos h3] at h
        split at h
        · cases h
          simp only [List.length_set, List.length_take]
          omega
        · cases h
      · rw [if_neg h3] at h
        split at h
        · cases h
        · rename_i x xs hk
          cases h
          have hlen : xs.length + 1 = expectedCols := by
            have := congrArg List.length hk
            simp only [List.length_cons, List.length_take] at this
            omega
          simp only [List.length_append, List.length_dropLast, List.length_cons,
            List.length_nil]
          omega
    · rw [if_neg h2] at h
      cases h
      simp only [List.length_append, List.length_replicate]
      omega

theorem fixBody_spec {body frs : List (List String)} {expectedCols targetIdx lng srt : Nat}
    (h : fixBody body expectedCols targetIdx = some (frs, lng, srt)) :
    frs.length = body.length ∧ ∀ fr ∈ frs, fr.length = expectedCols := by
  induction body generalizing frs lng srt with
  | nil =>
      unfold fixBody at h
      cases h
      simp
  | cons r rs ih =>
      unfold fixBody at h
      cases hr : fixRow r expectedCols targetIdx with
      | none => rw [hr] at h; cases h
      | some fr =>
          rw [hr] at h
          cases hrs : fixBody rs expectedCols targetIdx with
          | none => rw [hrs] at h; cases h
          | some p =>
              obtain ⟨frs0, lng0, srt0⟩ := p
              rw [hrs] at h
              cases h
              obtain ⟨ihlen, ihmem⟩ := ih hrs
              refine ⟨by simp [ihlen], ?_⟩
              intro x hx
              rcases List.mem_cons.mp hx with hx | hx
              · exact hx ▸ fixRow_length hr
              · exact ihmem x hx

theorem fixBody_exact {body : List (List String)} {expectedCols targetIdx : Nat}
    (h : ∀ r ∈ body, r.length = expectedCols) :
    fixBody body expectedCols targetIdx = some (body, 0, 0) := by
  induction body with
  | nil => rfl
  | cons r rs ih =>
      have hr : r.length = expectedCols := h r (List.mem_cons_self r rs)
      have hfr : fixRow r expectedCols targetIdx = some r := by
        unfold fixRow
        rw [if_pos hr]
      unfold fixBody
      rw [hfr, ih (fun x hx => h x (List.mem_cons_of_mem r hx))]
      simp [hr]

/-! ### Width Normalizer claims -/

/-- C1 (code bug): on the body row `["a","b","c","d"]` with `expectedCols = 3`
    and no merge target, the normalizer produces the merged cell `"c,c,d"`,
    duplicating the field at position `expectedCols − 1`, rather than the
    `"c,d"` the specification states: `overflow = r[expected_cols-1:]` already
    contains `kept[-1]`, which the merge-join prepends a second time. -/
theorem overflow_merge_duplicates_target_field :
    loadCsvForceWidth [["h1", "h2", "h3"], ["a", "b", "c", "d"]] 3 none =
      some ⟨["h1", "h2", "h3"], [["a", "b", "c,c,d"]], 1, 0⟩ ∧
    ["a", "b", "c,c,d"] ≠ ["a", "b", "c,d"] := by
  exact ⟨rfl, by decide⟩

/-- C2: whenever the width-normalizing loader returns a table, every body row
    of the table has length exactly `expectedCols`, and the number of output
    body rows equals the number of input body rows. -/
theorem width_and_count_invariant (rows : List (List String)) (expectedCols : Nat)
    (mergeInto : Option String) (t : Table)
    (h : loadCsvForceWidth rows expectedCols mergeInto = some t) :
    (∀ r ∈ t.rows, r.length = expectedCols) ∧ t.rows.length = (rows.drop 1).length := by
  cases rows with
  | nil =>
      simp only [loadCsvForceWidth] at h
      cases h
      simp
  | cons header body =>
      simp only [loadCsvForceWidth] at h
      cases hb : fixBody body expectedCols
          (resolveTargetIdx (padHeader header expectedCols) mergeInto expectedCols) with
      | none => rw [hb] at h; cases h
      | some p =>
          obtain ⟨frs, lng, srt⟩ := p
          rw [hb] at h
          cases h
          obtain ⟨hlen, hmem⟩ := fixBody_spec hb
          exact ⟨hmem, by simpa using hlen⟩

/-- Witness for C2 at a concrete input exercising all three row shapes. -/
theorem width_and_count_invariant_witness :
    (∀ r ∈ (Table.mk ["h1", "h2"] [["a", "b"], ["a", "b,b,c"], ["a", ""]] 1 1).rows,
        r.length = 2) ∧
    (Table.mk ["h1", "h2"] [["a", "b"], ["a", "b,b,c"], ["a", ""]] 1 1).rows.length =
      (([["h1", "h2"], ["a", "b"], ["a", "b", "c"], ["a"]] : List (List String)).drop 1).length :=
  width_and_count_invariant [["h1", "h2"], ["a", "b"], ["a", "b", "c"], ["a"]] 2 none
    ⟨["h1", "h2"], [["a", "b"], ["a", "b,b,c"], ["a", ""]], 1, 1⟩ rfl

/-- C7: a body row shorter than `expectedCols` is right-padded with
    empty-string fields up to length `expectedCols`, the original fields
    unchanged in place. -/
theorem short_row_padding (r : List String) (expectedCols targetIdx : Nat)
    (h : r.length < expectedCols) :
    fixRow r expectedCols targetIdx =
      some (r ++ List.replicate (expectedCols - r.length) "") := by
  unfold fixRow
  rw [if_neg (by omega), if_neg (by omega)]

/-- Witness for C7: `["a"]` with `expectedCols = 3` yields `["a","",""]`. -/
theorem short_row_padding_witness :
    fixRow ["a"] 3 2 = some ["a", "", ""] := by
  simpa using short_row_padding ["a"] 3 2 (by decide)

/-- C8: re-normalizing an already-normalized table (header and every body row
    of length exactly `expectedCols`) returns the identical header and rows,
    with zero long-row and short-row tallies. -/
theorem normalize_idempotent (header : List String) (body : List (List String))
    (expectedCols : Nat) (mergeInto : Option String)
    (hh : header.length = expectedCols) (hb : ∀ r ∈ body, r.length = expectedCols) :
    loadCsvForceWidth (header :: body) expectedCols mergeInto =
      some ⟨header, body, 0, 0⟩ := by
  have hpad : padHeader header expectedCols = header := by
    unfold padHeader
    rw [if_neg (by omega), if_neg (by omega)]
  simp only [loadCsvForceWidth]
  rw [hpad, fixBody_exact hb]

/-- Witness for C8 at a concrete already-normalized table. -/
theorem normalize_idempotent_witness :
    loadCsvForceWidth [["h1", "h2"], ["a", "b"], ["c", "d"]] 2 none =
      some ⟨["h1", "h2"], [["a", "b"], ["c", "d"]], 0, 0⟩ :=
  normalize_idempotent ["h1", "h2"] [["a", "b"], ["c", "d"]] 2 none (by decide)
    (by decide)

/-- C10: an empty parsed row list yields an empty table — no error, no
    synthesized placeholder header names, and zero long-row/short-row
    tallies. -/
theorem empty_rows_empty_table (expectedCols : Nat) (mergeInto : Option String) :
    loadCsvForceWidth [] expectedCols mergeInto = some ⟨[], [], 0, 0⟩ := rfl

/-! ### Delimiter Inferencer (read_csv3.py lines 39-51, read_csv.py lines 5-18)

Python `float` scores are modelled as `ℚ`: the variances compared against
each other are small integers divided by one common positive denominator
(the number of sampled non-blank lines), where float and exact rational
comparison coincide. -/

/-- The fixed candidate tuple `(',', ';', '|', '\t')`. -/
def candidates : List Char := [',', ';', '|', '\t']

/-- `line.count(d)` for a one-character needle. -/
def countChar (line : String) (d : Char) : Nat :=
  line.data.count d

/-- Python falsy `line.strip()`: the line is empty or all whitespace. -/
def blankLine (line : String) : Bool :=
  line.data.all (fun c => c.isWhitespace)

/-- Distinct values of a list in first-occurrence order — the key order of
    `collections.Counter`, which preserves first-insertion order. -/
def firstKeys : List Nat → List Nat
  | [] => []
  | x :: xs => x :: (firstKeys xs).filter (fun y => y ≠ x)

/-- Earliest maximum-multiplicity entry of a `(value, multiplicity)` list:
    `Counter.most_common` sorts by multiplicity descending with a stable
    sort, so ties keep first-insertion order. -/
def pickMode : List (Nat × Nat) → Option (Nat × Nat)
  | [] => none
  | x :: xs =>
      match pickMode xs with
      | none => some x
      | some y => if x.2 < y.2 then some y else some x

/-- `Counter(counts).most_common(1)[0][0]`.  The `0` default covers the empty
    list, on which the source never calls this (`if not counts: continue`). -/
def modeOf (counts : List Nat) : Nat :=
  match pickMode ((firstKeys counts).map (fun k => (k, counts.count k))) with
  | some p => p.1
  | none => 0

/-- The `(mode, -variance)` score of one candidate over the sampled lines:
    `mode = Counter(counts).most_common(1)[0][0]` and
    `var = sum((c - mode)**2 for c in counts) / max(len(counts), 1)`. -/
def scoreKey (lines : List String) (d : Char) : Nat × ℚ :=
  (modeOf (lines.map (fun ln => countChar ln d)),
   -(((lines.map (fun ln => countChar ln d)).map
        (fun c : Nat =>
          ((c : ℚ) - (modeOf (lines.map (fun ln => countChar ln d)) : ℚ)) ^ 2)).sum /
      ((max (lines.map (fun ln => countChar ln d)).length 1 : Nat) : ℚ)))

/-- Python tuple comparison on `(mode, -variance)` scores: strict
    lexicographic order. -/
def keyLt (a b : Nat × ℚ) : Prop :=
  a.1 < b.1 ∨ (a.1 = b.1 ∧ a.2 < b.2)

instance (a b : Nat × ℚ) : Decidable (keyLt a b) := by
  unfold keyLt
  exact inferInstance

/-- Lexicographic tuple `≤` on scores. -/
def keyLe (a b : Nat × ℚ) : Prop :=
  a.1 < b.1 ∨ (a.1 = b.1 ∧ a.2 ≤ b.2)

/-- The scored association list in candidate order, skipping a candidate when
    its per-line count list is empty (`if not counts: continue`) — which
    happens exactly when there is no sampled line at all. -/
def delimScores (lines : List String) : List (Char × (Nat × ℚ)) :=
  candidates.filterMap (fun d =>
    if (lines.map (fun ln => countChar ln d)).isEmpty then none
    else some (d, scoreKey lines d))

/-- Head of `sorted(scores.items(), key=lambda kv: (kv[1][0], kv[1][1]),
    reverse=True)`: the entry with the lexicographically greatest score;
    Python's sort is stable, so among tied scores the earliest candidate
    wins. -/
def pickDelim : List (Char × (Nat × ℚ)) → Option (Char × (Nat × ℚ))
  | [] => none
  | x :: xs =>
      match pickDelim xs with
      | none => some x
      | some y => if keyLt x.2 y.2 then some y else some x

/-- `_detect_delim_from_text` (read_csv3.py): scores the non-blank lines
    among the first 200 (`text.splitlines()` is the input here) and returns
    the best candidate, or `','` when there is nothing to score. -/
def detectDelimFromText (allLines : List String) : Char :=
  match pickDelim (delimScores
      ((allLines.take 200).filter (fun ln => blankLine ln = false))) with
  | some p => p.1
  | none => ','

/-- `_detect_delimiter` (read_csv.py): same scoring over the sample lines,
    but `None` (here `none`) when there is nothing to score. -/
def detectDelimiter (sampleLines : List String) : Option Char :=
  (pickDelim (delimScores
      (sampleLines.filter (fun ln => blankLine ln = false)))).map (fun p => p.1)

/-! ### Delimiter Inferencer lemmas -/

theorem keyLt_irrefl (a : Nat × ℚ) : ¬ keyLt a a := by
  unfold keyLt
  rintro (h | ⟨-, h⟩) <;> exact absurd h (lt_irrefl _)

theorem not_keyLt_iff {a b : Nat × ℚ} : ¬ keyLt a b ↔ keyLe b a := by
  unfold keyLt keyLe
  constructor
  · intro h
    rcases Nat.lt_trichotomy b.1 a.1 with h1 | h1 | h1
    · exact Or.inl h1
    · refine Or.inr ⟨h1, ?_⟩
      by_contra h2
      exact h (Or.inr ⟨h1.symm, lt_of_not_le h2⟩)
    · exact absurd (Or.inl h1) h
  · rintro (h1 | ⟨h1, h2⟩) (h3 | ⟨h3, h4⟩)
    · omega
    · omega
    · omega
    · exact absurd h4 (not_lt_of_le h2)

theorem keyLe_trans {a b c : Nat × ℚ} (h1 : keyLe a b) (h2 : keyLe b c) :
    keyLe a c := by
  unfold keyLe at h1 h2 ⊢
  rcases h1 with h1 | ⟨h1, h1q⟩ <;> rcases h2 with h2 | ⟨h2, h2q⟩
  · exact Or.inl (lt_trans h1 h2)
  · exact Or.inl (h2 ▸ h1)
  · exact Or.inl (h1 ▸ h2)
  · exact Or.inr ⟨h1.trans h2, le_trans h1q h2q⟩

theorem keyLe_of_keyLt {a b : Nat × ℚ} (h : keyLt a b) : keyLe a b := by
  unfold keyLt at h
  unfold keyLe
  rcases h with h | ⟨h1, h2⟩
  · exact Or.inl h
  · exact Or.inr ⟨h1, le_of_lt h2⟩

theorem pickDelim_eq_none {l : List (Char × (Nat × ℚ))} :
    pickDelim l = none ↔ l = [] := by
  cases l with
  | nil => simp [pickDelim]
  | cons x xs =>
      simp only [pickDelim]
      constructor
      · intro h
        cases hp : pickDelim xs with
        | none => rw [hp] at h; cases h
        | some y =>
            rw [hp] at h
            simp only [] at h
            by_cases hk : keyLt x.2 y.2
            · rw [if_pos hk] at h; cases h
            · rw [if_neg hk] at h; cases h
      · intro h; cases h

theorem pickDelim_max {l : List (Char × (Nat × ℚ))} {x : Char × (Nat × ℚ)}
    (h : pickDelim l = some x) :
    x ∈ l ∧ ∀ y ∈ l, keyLe y.2 x.2 := by
  induction l generalizing x with
  | nil => cases h
  | cons a as ih =>
      simp only [pickDelim] at h
      cases hp : pickDelim as with
      | none =>
          rw [hp] at h
          cases h
          have has : as = [] := pickDelim_eq_none.mp hp
          subst has
          refine ⟨List.mem_cons_self _ _, ?_⟩
          intro y hy
          rcases List.mem_cons.mp hy with hy | hy
          · exact hy ▸ not_keyLt_iff.mp (keyLt_irrefl _)
          · cases hy
      | some b =>
          rw [hp] at h
          simp only [] at h
          obtain ⟨hbmem, hbmax⟩ := ih hp
          by_cases hk : keyLt a.2 b.2
          · rw [if_pos hk] at h
            cases h
            refine ⟨List.mem_cons_of_mem _ hbmem, ?_⟩
            intro y hy
            rcases List.mem_cons.mp hy with hy | hy
            · exact hy ▸ keyLe_of_keyLt hk
            · exact hbmax y hy
          · rw [if_neg hk] at h
            cases h
            refine ⟨List.mem_cons_self _ _, ?_⟩
            intro y hy
            rcases List.mem_cons.mp hy with hy | hy
            · exact hy ▸ not_keyLt_iff.mp (keyLt_irrefl _)
            · exact keyLe_trans (hbmax y hy) (not_keyLt_iff.mp hk)

theorem firstKeys_replicate_zero (n : Nat) :
    firstKeys (List.replicate n 0) = if n = 0 then [] else [0] := by
  induction n with
  | zero => rfl
  | succ m ih =>
      rw [List.replicate_succ]
      simp only [firstKeys, ih]
      cases m with
      | zero => simp
      | succ k => simp

theorem modeOf_replicate_zero (n : Nat) : modeOf (List.replicate n 0) = 0 := by
  unfold modeOf
  rw [firstKeys_replicate_zero]
  cases n with
  | zero => simp [pickMode]
  | succ m => simp [pickMode]

theorem map_count_eq_replicate {lines : List String} {d : Char}
    (h : ∀ ln ∈ lines, countChar ln d = 0) :
    lines.map (fun ln => countChar ln d) = List.replicate lines.length 0 := by
  apply List.eq_replicate_iff.mpr
  refine ⟨by simp, ?_⟩
  intro b hb
  rcases List.mem_map.mp hb with ⟨ln, hln, hbeq⟩
  exact hbeq ▸ h ln hln

theorem scoreKey_all_zero {lines : List String} {d : Char}
    (h : ∀ ln ∈ lines, countChar ln d = 0) : scoreKey lines d = (0, 0) := by
  unfold scoreKey
  rw [map_count_eq_replicate h, modeOf_replicate_zero]
  refine Prod.ext rfl ?_
  rw [List.map_replicate]
  norm_num [List.sum_replicate]

theorem delimScores_of_ne_nil {lines : List String} (h : lines ≠ []) :
    delimScores lines =
      [(',', scoreKey lines ','), (';', scoreKey lines ';'),
       ('|', scoreKey lines '|'), ('\t', scoreKey lines '\t')] := by
  cases lines with
  | nil => exact absurd rfl h
  | cons a as => simp [delimScores, candidates]

/-! ### Delimiter Inferencer claims -/

/-- C9: when no candidate character occurs in any sampled line (which also
    covers a sample with no non-blank lines), `_detect_delim_from_text`
    returns the comma — a delimiter is always produced. -/
theorem detect_defaults_to_comma (allLines : List String)
    (h : ∀ d ∈ candidates, ∀ ln ∈ allLines, countChar ln d = 0) :
    detectDelimFromText allLines = ',' := by
  unfold detectDelimFromText
  cases hL : (allLines.take 200).filter (fun ln => blankLine ln = false) with
  | nil => simp [delimScores, pickDelim]
  | cons a as =>
      have hz : ∀ d ∈ candidates, ∀ ln ∈ a :: as, countChar ln d = 0 := by
        intro d hd ln hln
        refine h d hd ln ?_
        have : ln ∈ (allLines.take 200).filter (fun ln => blankLine ln = false) :=
          hL ▸ hln
        exact List.mem_of_mem_take (List.mem_of_mem_filter this)
      rw [delimScores_of_ne_nil (List.cons_ne_nil a as)]
      rw [scoreKey_all_zero (hz ',' (by simp [candidates])),
        scoreKey_all_zero (hz ';' (by simp [candidates])),
        scoreKey_all_zero (hz '|' (by simp [candidates])),
        scoreKey_all_zero (hz '\t' (by simp [candidates]))]
      simp [pickDelim, keyLt]

/-- Witness for C9: a sample of blank and candidate-free lines selects the
    comma. -/
theorem detect_defaults_to_comma_witness :
    detectDelimFromText ["ab", "  ", "xy"] = ',' :=
  detect_defaults_to_comma ["ab", "  ", "xy"] (by decide)

/-- C3 (counterexample): on the sample `["a,b", "x", "y"]` the comma occurs
    in a line while the semicolon never occurs, yet `_detect_delim_from_text`
    selects the semicolon.  `if not counts: continue` skips a candidate only
    when there is no non-blank line at all, so the zero-occurrence semicolon
    is scored `(0, 0)`, which beats the comma's `(0, -1/3)`. -/
theorem zero_observation_candidate_wins :
    detectDelimFromText ["a,b", "x", "y"] = ';' ∧
    countChar "a,b" ',' = 1 ∧
    (∀ ln ∈ (["a,b", "x", "y"] : List String), countChar ln ';' = 0) := by
  refine ⟨?_, by decide, by decide⟩
  have hfilter : ((["a,b", "x", "y"] : List String).take 200).filter
      (fun ln => blankLine ln = false) = ["a,b", "x", "y"] := by decide
  have hcomma : scoreKey ["a,b", "x", "y"] ',' = (0, -(1/3 : ℚ)) := by
    unfold scoreKey
    have hcount : (["a,b", "x", "y"] : List String).map (fun ln => countChar ln ',') =
        [1, 0, 0] := by decide
    rw [hcount]
    have hmode : modeOf [1, 0, 0] = 0 := by decide
    rw [hmode]
    refine Prod.ext rfl ?_
    norm_num
  have hz : ∀ e ∈ ([';', '|', '\t'] : List Char),
      scoreKey ["a,b", "x", "y"] e = (0, 0) := by
    intro e he
    refine scoreKey_all_zero ?_
    fin_cases he <;> decide
  have hs : delimScores ["a,b", "x", "y"] =
      [(',', ((0 : Nat), -(1/3 : ℚ))), (';', (0, 0)), ('|', (0, 0)), ('\t', (0, 0))] := by
    rw [delimScores_of_ne_nil (by simp)]
    rw [hcomma, hz ';' (by simp), hz '|' (by simp), hz '\t' (by simp)]
  have hpick : pickDelim
      [(',', ((0 : Nat), -(1/3 : ℚ))), (';', (0, 0)), ('|', (0, 0)), ('\t', (0, 0))] =
      some (';', (0, 0)) := by
    norm_num [pickDelim, keyLt]
  unfold detectDelimFromText
  rw [hfilter, hs, hpick]

/-- C3 (amended): for every sample with at least one non-blank line among the
    first 200, the inferencer returns a candidate whose `(mode, −variance)`
    score is lexicographically greatest among all four candidates — every
    candidate is scored, zero-occurrence candidates included. -/
theorem detect_selects_lex_max_score (allLines : List String)
    (h : (allLines.take 200).filter (fun ln => blankLine ln = false) ≠ []) :
    detectDelimFromText allLines ∈ candidates ∧
    ∀ d ∈ candidates,
      keyLe
        (scoreKey ((allLines.take 200).filter (fun ln => blankLine ln = false)) d)
        (scoreKey ((allLines.take 200).filter (fun ln => blankLine ln = false))
          (detectDelimFromText allLines)) := by
  unfold detectDelimFromText
  cases hL : (allLines.take 200).filter (fun ln => blankLine ln = false) with
  | nil => exact absurd hL h
  | cons a as =>
      rw [delimScores_of_ne_nil (List.cons_ne_nil a as)]
      cases hp : pickDelim
          [(',', scoreKey (a :: as) ','), (';', scoreKey (a :: as) ';'),
           ('|', scoreKey (a :: as) '|'), ('\t', scoreKey (a :: as) '\t')] with
      | none => exact absurd (pickDelim_eq_none.mp hp) (by simp)
      | some x =>
          obtain ⟨hxmem, hxmax⟩ := pickDelim_max hp
          simp only [List.mem_cons, List.not_mem_nil, or_false] at hxmem
          have hgoal : x.1 ∈ candidates ∧
              ∀ d ∈ candidates, keyLe (scoreKey (a :: as) d) (scoreKey (a :: as) x.1) := by
            have hx2 : x.2 = scoreKey (a :: as) x.1 := by
              rcases hxmem with rfl | rfl | rfl | rfl <;> rfl
            have hx1 : x.1 ∈ candidates := by
              rcases hxmem with rfl | rfl | rfl | rfl <;> simp [candidates]
            refine ⟨hx1, ?_⟩
            intro d hd
            rw [← hx2]
            have hd4 : d = ',' ∨ d = ';' ∨ d = '|' ∨ d = '\t' := by
              simpa [candidates] using hd
            rcases hd4 with rfl | rfl | rfl | rfl
            · exact hxmax (',', scoreKey (a :: as) ',') (by simp)
            · exact hxmax (';', scoreKey (a :: as) ';') (by simp)
            · exact hxmax ('|', scoreKey (a :: as) '|') (by simp)
            · exact hxmax ('\t', scoreKey (a :: as) '\t') (by simp)
          exact hgoal

/-- Witness for C3 (amended) at the concrete sample `["a,b"]`. -/
theorem detect_selects_lex_max_score_witness :
    detectDelimFromText ["a,b"] ∈ candidates ∧
    ∀ d ∈ candidates,
      keyLe
        (scoreKey (((["a,b"] : List String).take 200).filter
          (fun ln => blankLine ln = false)) d)
        (scoreKey (((["a,b"] : List String).take 200).filter
          (fun ln => blankLine ln = false)) (detectDelimFromText ["a,b"])) :=
  detect_selects_lex_max_score ["a,b"] (by decide)

/-! ### Byte Decoder (read_csv3.py lines 5-37)

Raw bytes are `Nat` values, decoded text is `List Char`.  The codec calls
`raw.decode(...)` are abstracted as function parameters returning `none`
for a raised exception.  The float comparison `zero_ratio > 0.1` is exact
rational comparison: `0.1` and `count/200` round to doubles on the same
side of (or onto) each other exactly as their rational values compare. -/

/-- `_looks_utf16`: the UTF-16 BOM signatures, then — only for inputs of at
    least 200 bytes — the null-ratio heuristic
    `sample.count(b'\x00') / len(sample) > 0.1`; shorter BOM-less inputs
    return `False`. -/
def looksUtf16 (raw : List Nat) : Bool :=
  if raw.take 2 = [0xff, 0xfe] ∨ raw.take 2 = [0xfe, 0xff] then
    true
  else if 200 ≤ raw.length then
    decide ((1/10 : ℚ) < ((raw.take 200).count 0 : ℚ) / (((raw.take 200).length : Nat) : ℚ))
  else
    false

/-- `text.replace('\x00', '')`. -/
def stripNulls (t : List Char) : List Char :=
  t.filter (fun c => c ≠ Char.ofNat 0)

/-- The `for enc in encodings` retry loop of `_decode_text_safely`: the
    first decoder that returns text wins and its result is stripped of
    NULs; when every decoder raises, the final `RuntimeError` is raised
    (`none`). -/
def tryEncodings (decoders : List (List Nat → Option (List Char)))
    (raw : List Nat) : Option (List Char) :=
  match decoders with
  | [] => none
  | d :: ds =>
      match d raw with
      | some text => some (stripNulls text)
      | none => tryEncodings ds raw

/-- `_decode_text_safely`: when `_looks_utf16` fires, try the BOM-aware
    UTF-16 decode and strip residual NULs, falling through to the narrow
    encodings on failure; otherwise go straight to the narrow encodings. -/
def decodeTextSafely (utf16Decode : List Nat → Option (List Char))
    (decoders : List (List Nat → Option (List Char)))
    (raw : List Nat) : Option (List Char) :=
  if looksUtf16 raw then
    match utf16Decode raw with
    | some text => some (stripNulls text)
    | none => tryEncodings decoders raw
  else
    tryEncodings decoders raw

/-! ### Byte Decoder claims -/

theorem stripNulls_no_null (t : List Char) : Char.ofNat 0 ∉ stripNulls t := by
  simp [stripNulls]

theorem tryEncodings_no_null {decoders : List (List Nat → Option (List Char))}
    {raw : List Nat} {t : List Char}
    (h : tryEncodings decoders raw = some t) : Char.ofNat 0 ∉ t := by
  induction decoders with
  | nil => cases h
  | cons d ds ih =>
      simp only [tryEncodings] at h
      cases hd : d raw with
      | some text =>
          rw [hd] at h
          simp only [] at h
          cases h
          exact stripNulls_no_null text
      | none =>
          rw [hd] at h
          simp only [] at h
          exact ih h

/-- C6: whenever `_decode_text_safely` returns text, that text contains no
    null byte — both on the UTF-16 path and on the narrow-encoding fallback
    path, for arbitrary behaviours of the underlying codecs. -/
theorem decode_returns_no_nulls (utf16Decode : List Nat → Option (List Char))
    (decoders : List (List Nat → Option (List Char))) (raw : List Nat)
    (t : List Char) (h : decodeTextSafely utf16Decode decoders raw = some t) :
    Char.ofNat 0 ∉ t := by
  unfold decodeTextSafely at h
  by_cases hu : looksUtf16 raw = true
  · rw [if_pos hu] at h
    cases hd : utf16Decode raw with
    | some text =>
        rw [hd] at h
        simp only [] at h
        cases h
        exact stripNulls_no_null text
    | none =>
        rw [hd] at h
        simp only [] at h
        exact tryEncodings_no_null h
  · rw [if_neg hu] at h
    exact tryEncodings_no_null h

/-- Witness for C6: a BOM-carrying input whose UTF-16 decode contains an
    embedded NUL still comes back NUL-free. -/
theorem decode_returns_no_nulls_witness : Char.ofNat 0 ∉ (['a'] : List Char) :=
  decode_returns_no_nulls (fun _ => some [Char.ofNat 0, 'a']) [] [0xff, 0xfe]
    ['a'] rfl

/-- C4 (counterexample): 100 null bytes without a BOM have null ratio 1,
    far above 10%, yet `_looks_utf16` classifies them as narrow: inputs
    shorter than 200 bytes never reach the ratio heuristic. -/
theorem short_input_never_utf16 :
    ¬ (looksUtf16 (List.replicate 100 0) = true ↔
        (1/10 : ℚ) < (((List.replicate 100 0).take 200).count 0 : ℚ) /
          ((((List.replicate 100 0).take 200).length : Nat) : ℚ)) := by
  have h1 : looksUtf16 (List.replicate 100 0) = false := by decide
  have h2 : (1/10 : ℚ) < (((List.replicate 100 0).take 200).count 0 : ℚ) /
      ((((List.replicate 100 0).take 200).length : Nat) : ℚ) := by
    have ht : (List.replicate 100 (0 : Nat)).take 200 = List.replicate 100 0 := by
      simp [List.take_replicate]
    rw [ht, List.count_replicate]
    norm_num
  intro h
  rw [h1] at h
  exact absurd (h.mpr h2) (by simp)

/-- C4 (amended): absent a UTF-16 BOM signature, the input is classified
    double-byte iff it has at least 200 bytes and more than 20 of its first
    200 bytes are null (ratio strictly above 10%); BOM-less inputs shorter
    than 200 bytes are never classified double-byte. -/
theorem looksUtf16_iff (raw : List Nat)
    (h : ¬ (raw.take 2 = [0xff, 0xfe] ∨ raw.take 2 = [0xfe, 0xff])) :
    looksUtf16 raw = true ↔ 200 ≤ raw.length ∧ 20 < (raw.take 200).count 0 := by
  unfold looksUtf16
  rw [if_neg h]
  by_cases h2 : 200 ≤ raw.length
  · rw [if_pos h2]
    have hlen : (raw.take 200).length = 200 := by
      rw [List.length_take]
      omega
    rw [hlen]
    have hiff : ((1 : ℚ)/10 < ((raw.take 200).count 0 : ℚ) / ((200 : Nat) : ℚ)) ↔
        20 < (raw.take 200).count 0 := by
      rw [show (((200 : Nat) : ℚ)) = (200 : ℚ) by norm_num]
      rw [div_lt_div_iff₀ (by norm_num) (by norm_num)]
      constructor
      · intro h4
        by_contra h5
        push_neg at h5
        have h6 : (((raw.take 200).count 0 : ℚ)) ≤ 20 := by exact_mod_cast h5
        linarith
      · intro h4
        have h6 : (20 : ℚ) < ((raw.take 200).count 0 : ℚ) := by exact_mod_cast h4
        linarith
    simp only [decide_eq_true_eq]
    rw [hiff]
    simp [h2]
  · rw [if_neg h2]
    simp [h2]

/-- Witness for C4 (amended) on a BOM-less input of 200 null bytes. -/
theorem looksUtf16_iff_witness :
    looksUtf16 (List.replicate 200 0) = true ↔
      200 ≤ (List.replicate 200 (0 : Nat)).length ∧
      20 < ((List.replicate 200 (0 : Nat)).take 200).count 0 :=
  looksUtf16_iff (List.replicate 200 0) (by decide)

/-! ### Fallback Orchestrator (read_csv.py lines 24-118)

The four tokenization attempts are `pandas.read_csv` calls (strict quoting,
explicit quote/escape, regex split outside quotes, quote-repair then regex
split); they are abstracted as functions of the chosen delimiter, `.ok` for
a returned DataFrame and `.error` for the exception text.  The regex table
at lines 55-60 has an entry for each of the four candidates and the
delimiter guess always is one of them, so strategy 3 is always attempted
(its `regex_sep is None` skip is dead code). -/

/-- `delim = _detect_delimiter(head_lines) or ','` (line 30). -/
def robustDelim (headLines : List String) : Char :=
  (detectDelimiter headLines).getD ','

/-- `counts = [ln.count(delim) for ln in head_lines if ln.strip()]` and
    `mode_cols = Counter(counts).most_common(1)[0][0] if counts else None`
    (lines 33-34). -/
def robustModeCols (headLines : List String) : Option Nat :=
  match (headLines.filter (fun ln => blankLine ln = false)).map
      (fun ln => countChar ln (robustDelim headLines)) with
  | [] => none
  | c :: cs => some (modeOf (c :: cs))

/-- The aggregate diagnostic raised when every strategy fails: the delimiter
    guess, the head sample's modal column count, and the per-strategy error
    descriptions in strategy order (the `RuntimeError` message of lines
    109-118). -/
structure IngestExhausted where
  delim : Char
  modeCols : Option Nat
  attempts : List String
deriving Repr, DecidableEq

/-- `robust_read_csv`: try the four strategies in order at the chosen
    delimiter, return the first DataFrame; when all four fail, raise one
    aggregate error carrying every attempt. -/
def robustReadCsv {Df : Type} (headLines : List String)
    (strat1 strat2 strat3 strat4 : Char → Except String Df) :
    Except IngestExhausted Df :=
  match strat1 (robustDelim headLines) with
  | .ok df => .ok df
  | .error e1 =>
    match strat2 (robustDelim headLines) with
    | .ok df => .ok df
    | .error e2 =>
      match strat3 (robustDelim headLines) with
      | .ok df => .ok df
      | .error e3 =>
        match strat4 (robustDelim headLines) with
        | .ok df => .ok df
        | .error e4 =>
            .error ⟨robustDelim headLines, robustModeCols headLines, [e1, e2, e3, e4]⟩

/-! ### Fallback Orchestrator claim -/

/-- C5: when all four tokenization strategies fail, the orchestrator yields
    a single aggregate error — never a table — whose diagnostic carries
    exactly the four per-strategy records in strategy order together with
    the delimiter guess and the modal column count of the head sample. -/
theorem exhausted_error_audit {Df : Type} (headLines : List String)
    (strat1 strat2 strat3 strat4 : Char → Except String Df)
    (e1 e2 e3 e4 : String)
    (h1 : strat1 (robustDelim headLines) = .error e1)
    (h2 : strat2 (robustDelim headLines) = .error e2)
    (h3 : strat3 (robustDelim headLines) = .error e3)
    (h4 : strat4 (robustDelim headLines) = .error e4) :
    robustReadCsv headLines strat1 strat2 strat3 strat4 =
      .error ⟨robustDelim headLines, robustModeCols headLines, [e1, e2, e3, e4]⟩ := by
  unfold robustReadCsv
  rw [h1]
  simp only []
  rw [h2]
  simp only []
  rw [h3]
  simp only []
  rw [h4]

/-- Witness for C5 with four concretely failing strategies. -/
theorem exhausted_error_audit_witness :
    robustReadCsv ["a,b"]
      (fun _ : Char => (Except.error "strict" : Except String Unit))
      (fun _ : Char => Except.error "escape")
      (fun _ : Char => Except.error "regex")
      (fun _ : Char => Except.error "repair") =
    Except.error ⟨robustDelim ["a,b"], robustModeCols ["a,b"],
      ["strict", "escape", "regex", "repair"]⟩ :=
  exhausted_error_audit ["a,b"] _ _ _ _ "strict" "escape" "regex" "repair"
    rfl rfl rfl rfl

end CsvIngest
